import Mathlib

/-
Verification of the SCARA kinematics solver (src/design/scara_kinematics.py)
against its natural-language specification.

The Python module is shallowly embedded over the real numbers: Python floats
become `ℝ`, `math.sqrt`/`math.acos`/`math.atan2` become `Real.sqrt`,
`Real.arccos` and `Complex.arg`, the Python float modulo `%` (result carrying
the sign of the divisor) becomes `pymod`, and the Python behaviours of
`inverse_kinematics` — returning `None`, raising `ZeroDivisionError`, or
returning a pair of solutions — become the three constructors of `IKResult`.
-/

namespace SCARA

open Real

/-- State stored by `SCARAKinematics.__init__`: the two arm lengths together
with the derived reach bounds cached at construction. -/
structure SCARAKinematics where
  L1 : ℝ
  L2 : ℝ
  max_radius : ℝ
  min_radius : ℝ

/-- `SCARAKinematics.__init__(L1, L2)`: stores `L1`, `L2`,
`max_radius = L1 + L2`, `min_radius = abs(L1 - L2)`.  The constructor performs
no validation of its arguments. -/
def mk_scara (L1 L2 : ℝ) : SCARAKinematics :=
  ⟨L1, L2, L1 + L2, |L1 - L2|⟩

/-- `math.radians`: degrees to radians. -/
noncomputable def radians (d : ℝ) : ℝ := d * (Real.pi / 180)

/-- `math.degrees`: radians to degrees. -/
noncomputable def degrees (r : ℝ) : ℝ := r * (180 / Real.pi)

/-- Python float modulo `a % b`: `a - b * floor(a / b)` (the result carries
the sign of the divisor). -/
noncomputable def pymod (a b : ℝ) : ℝ := a - b * ⌊a / b⌋

/-- `math.atan2(y, x)`. -/
noncomputable def atan2 (y x : ℝ) : ℝ := Complex.arg ⟨x, y⟩

/-- `max(-1.0, min(1.0, v))`: the clamp applied to law-of-cosines ratios. -/
def clamp1 (v : ℝ) : ℝ := max (-1) (min 1 v)

/-- `SCARAKinematics.forward_kinematics(theta1_deg, theta2_deg)`. -/
noncomputable def forward_kinematics (r : SCARAKinematics)
    (theta1_deg theta2_deg : ℝ) : ℝ × ℝ :=
  let theta1_rad := radians theta1_deg
  let theta2_rad := radians theta2_deg
  (r.L1 * Real.cos theta1_rad + r.L2 * Real.cos theta2_rad,
   r.L1 * Real.sin theta1_rad + r.L2 * Real.sin theta2_rad)

/-- Outcome of a call to `SCARAKinematics.inverse_kinematics`:
`unreachable` is Python's `None` return, `divByZero` is an escaping
`ZeroDivisionError` (Python raises on float division by zero), and
`ok s1 s2` is the returned two-element solution list. -/
inductive IKResult where
  | unreachable : IKResult
  | divByZero : IKResult
  | ok : (ℝ × ℝ) → (ℝ × ℝ) → IKResult

/-- `SCARAKinematics.normalize_angle(angle_deg)`: `angle_deg % 360`. -/
noncomputable def normalize_angle (angle_deg : ℝ) : ℝ := pymod angle_deg 360

/-- `SCARAKinematics.inverse_kinematics(x, y)`, with the two loop iterations
(`elbow_angle_pos` then `elbow_angle_neg`) unrolled.  The divisions
`.../(2*L1*L2)` and `.../(2*L1*L3)` raise `ZeroDivisionError` in Python when
their denominators are zero, in the order the Python code reaches them. -/
noncomputable def inverse_kinematics (r : SCARAKinematics) (x y : ℝ) :
    IKResult :=
  let L3 := Real.sqrt (x * x + y * y)
  if L3 > r.max_radius ∨ L3 < r.min_radius then IKResult.unreachable
  else
    let target_angle := atan2 y x
    if 2 * r.L1 * r.L2 = 0 then IKResult.divByZero
    else
      let cos_angle_at_elbow :=
        clamp1 ((r.L1 ^ 2 + r.L2 ^ 2 - L3 ^ 2) / (2 * r.L1 * r.L2))
      let elbow_angle_pos := Real.arccos cos_angle_at_elbow
      let elbow_angle_neg := -elbow_angle_pos
      if 2 * r.L1 * L3 = 0 then IKResult.divByZero
      else
        let cos_angle_at_base :=
          clamp1 ((r.L1 ^ 2 + L3 ^ 2 - r.L2 ^ 2) / (2 * r.L1 * L3))
        let angle_at_base := Real.arccos cos_angle_at_base
        let theta1A :=
          if elbow_angle_pos > 0 then target_angle - angle_at_base
          else target_angle + angle_at_base
        let theta2A := theta1A + Real.pi - elbow_angle_pos
        let theta1B :=
          if elbow_angle_neg > 0 then target_angle - angle_at_base
          else target_angle + angle_at_base
        let theta2B := theta1B + Real.pi - elbow_angle_neg
        IKResult.ok
          (normalize_angle (degrees theta1A), normalize_angle (degrees theta2A))
          (normalize_angle (degrees theta1B), normalize_angle (degrees theta2B))

/-- First `while` loop of `SCARAKinematics.wrap_degrees`: add 360 while the
angle is negative. -/
noncomputable def wrapUp (a : ℝ) : ℝ :=
  if h : a < 0 then wrapUp (a + 360) else a
termination_by (⌈-a / 360⌉).toNat
decreasing_by
  have h1 : -(a + 360) / 360 = -a / 360 - 1 := by ring
  have h2 : (0 : ℝ) < -a / 360 := div_pos (by linarith) (by norm_num)
  have h3 : (0 : ℤ) < ⌈-a / 360⌉ := Int.ceil_pos.mpr h2
  have h4 : ⌈-(a + 360) / 360⌉ = ⌈-a / 360⌉ - 1 := by
    rw [h1, Int.ceil_sub_one]
  rw [Int.toNat_lt_toNat (by omega)]
  omega

/-- Second `while` loop of `SCARAKinematics.wrap_degrees`: subtract 360 while
the angle is at least 360. -/
noncomputable def wrapDown (a : ℝ) : ℝ :=
  if h : a ≥ 360 then wrapDown (a - 360) else a
termination_by (⌊a / 360⌋).toNat
decreasing_by
  have h1 : (a - 360) / 360 = a / 360 - 1 := by ring
  have h3 : (1 : ℤ) ≤ ⌊a / 360⌋ := by
    apply Int.le_floor.mpr
    rw [Int.cast_one, le_div_iff₀ (by norm_num : (0:ℝ) < 360)]
    linarith
  have h4 : ⌊(a - 360) / 360⌋ = ⌊a / 360⌋ - 1 := by
    rw [h1, Int.floor_sub_one]
  rw [Int.toNat_lt_toNat (by omega)]
  omega

/-- `SCARAKinematics.wrap_degrees(angle_deg)`: the iterative
add/subtract-360 wrap. -/
noncomputable def wrap_degrees (angle_deg : ℝ) : ℝ :=
  wrapDown (wrapUp angle_deg)

/-! ### Basic properties of the Python float modulo -/

lemma pymod_360_nonneg (a : ℝ) : 0 ≤ pymod a 360 := by
  unfold pymod
  have h := Int.floor_le (a / 360)
  have h360 : (360 : ℝ) * (a / 360) = a := by field_simp
  nlinarith

lemma pymod_360_lt (a : ℝ) : pymod a 360 < 360 := by
  unfold pymod
  have h := Int.lt_floor_add_one (a / 360)
  have h360 : (360 : ℝ) * (a / 360) = a := by field_simp
  nlinarith

lemma pymod_360_add_int (a : ℝ) (k : ℤ) :
    pymod (a + 360 * k) 360 = pymod a 360 := by
  unfold pymod
  have h1 : (a + 360 * k) / 360 = a / 360 + k := by field_simp; ring
  rw [h1, Int.floor_add_int]
  push_cast
  ring

lemma pymod_360_eq_self {a : ℝ} (h0 : 0 ≤ a) (h1 : a < 360) :
    pymod a 360 = a := by
  unfold pymod
  have hf : ⌊a / 360⌋ = 0 := by
    rw [Int.floor_eq_zero_iff]
    constructor
    · exact div_nonneg h0 (by norm_num)
    · rw [div_lt_one (by norm_num : (0:ℝ) < 360)]; linarith
  rw [hf]
  simp

/-! ### The iterative wrap agrees with the modulo wrap -/

lemma wrapUp_nonneg (a : ℝ) : 0 ≤ wrapUp a := by
  induction a using wrapUp.induct with
  | case1 a h ih =>
    rw [wrapUp]
    simp only [h, dite_true]
    exact ih
  | case2 a h =>
    rw [wrapUp]
    simp only [h, dite_false]
    linarith [not_lt.mp h]

lemma wrapUp_pymod (a : ℝ) : pymod (wrapUp a) 360 = pymod a 360 := by
  induction a using wrapUp.induct with
  | case1 a h ih =>
    rw [wrapUp]
    simp only [h, dite_true]
    rw [ih]
    have : a + 360 = a + 360 * ((1 : ℤ) : ℝ) := by norm_num
    rw [this, pymod_360_add_int]
  | case2 a h =>
    rw [wrapUp]
    simp only [h, dite_false]

lemma wrapDown_lt (a : ℝ) : wrapDown a < 360 := by
  induction a using wrapDown.induct with
  | case1 a h ih =>
    rw [wrapDown]
    simp only [h, dite_true]
    exact ih
  | case2 a h =>
    rw [wrapDown]
    simp only [h, dite_false]
    linarith [not_le.mp h]

lemma wrapDown_nonneg {a : ℝ} (h0 : 0 ≤ a) : 0 ≤ wrapDown a := by
  induction a using wrapDown.induct with
  | case1 a h ih =>
    rw [wrapDown]
    simp only [h, dite_true]
    exact ih (by linarith)
  | case2 a h =>
    rw [wrapDown]
    simp only [h, dite_false]
    exact h0

lemma wrapDown_pymod (a : ℝ) : pymod (wrapDown a) 360 = pymod a 360 := by
  induction a using wrapDown.induct with
  | case1 a h ih =>
    rw [wrapDown]
    simp only [h, dite_true]
    rw [ih]
    have : a - 360 = a + 360 * ((-1 : ℤ) : ℝ) := by push_cast; ring
    rw [this, pymod_360_add_int]
  | case2 a h =>
    rw [wrapDown]
    simp only [h, dite_false]

/-- C8: for every real input `a`, `normalize_angle a` lies in `[0, 360)`, is
congruent to `a` modulo 360 (a true modulo, so `normalize_angle (-10) = 350`),
and is invariant under adding any integer multiple of 360. -/
theorem normalize_angle_law :
    (∀ a : ℝ, (0 ≤ normalize_angle a ∧ normalize_angle a < 360) ∧
      (∃ k : ℤ, a - normalize_angle a = 360 * k) ∧
      (∀ k : ℤ, normalize_angle (a + 360 * k) = normalize_angle a)) ∧
    normalize_angle (-10) = 350 := by
  constructor
  · intro a
    refine ⟨⟨pymod_360_nonneg a, pymod_360_lt a⟩, ⟨⌊a / 360⌋, ?_⟩, ?_⟩
    · unfold normalize_angle pymod
      ring
    · intro k
      exact pymod_360_add_int a k
  · unfold normalize_angle pymod
    have hf : ⌊(-10 : ℝ) / 360⌋ = -1 := by
      rw [Int.floor_eq_iff]
      constructor
      · push_cast; norm_num
      · push_cast; norm_num
    rw [hf]
    norm_num

/-- C9: the modulo-based wrap `normalize_angle` and the iterative
add/subtract-360 wrap `wrap_degrees` agree on every real input. -/
theorem wrap_degrees_eq_normalize_angle :
    ∀ a : ℝ, wrap_degrees a = normalize_angle a := by
  intro a
  unfold wrap_degrees normalize_angle
  have h0 : 0 ≤ wrapDown (wrapUp a) := wrapDown_nonneg (wrapUp_nonneg a)
  have h1 : wrapDown (wrapUp a) < 360 := wrapDown_lt (wrapUp a)
  calc wrapDown (wrapUp a) = pymod (wrapDown (wrapUp a)) 360 :=
        (pymod_360_eq_self h0 h1).symm
    _ = pymod (wrapUp a) 360 := wrapDown_pymod (wrapUp a)
    _ = pymod a 360 := wrapUp_pymod a

/-! ### Construction -/

/-- C5 counterexample: construction with the non-positive length `L1 = -1` is
not rejected or flagged — the constructor succeeds and silently stores the
negative length together with the derived radii. -/
theorem mk_scara_accepts_nonpositive :
    mk_scara (-1) 1 = ⟨-1, 1, 0, 2⟩ := by
  unfold mk_scara
  have h1 : (-1 : ℝ) + 1 = 0 := by norm_num
  have h2 : |(-1 : ℝ) - 1| = 2 := by
    rw [abs_of_nonpos (by norm_num)]
    norm_num
  rw [h1, h2]

/-- C5 amended: construction performs no validation at all — for every pair of
lengths, including non-positive ones, it succeeds and stores `L1`, `L2`,
`max_radius = L1 + L2` and `min_radius = |L1 - L2|` unchanged. -/
theorem mk_scara_never_rejects (L1 L2 : ℝ) (_h : L1 ≤ 0 ∨ L2 ≤ 0) :
    mk_scara L1 L2 = ⟨L1, L2, L1 + L2, |L1 - L2|⟩ :=
  rfl

/-- Witness for `mk_scara_never_rejects` at `L1 = -1`, `L2 = 1`. -/
theorem mk_scara_never_rejects_witness :
    mk_scara (-1) 1 = ⟨-1, 1, (-1) + 1, |(-1 : ℝ) - 1|⟩ :=
  mk_scara_never_rejects (-1) 1 (Or.inl (by norm_num))

/-! ### Forward kinematics -/

/-- C6: `forward_kinematics` returns exactly
`(L1·cos θ1 + L2·cos θ2, L1·sin θ1 + L2·sin θ2)` with each angle
independently converted from degrees to radians; it is a total pure function
with no reachability check and no error outcome. -/
theorem forward_kinematics_formula (L1 L2 t1 t2 : ℝ) :
    forward_kinematics (mk_scara L1 L2) t1 t2 =
      (L1 * Real.cos (t1 * Real.pi / 180) + L2 * Real.cos (t2 * Real.pi / 180),
       L1 * Real.sin (t1 * Real.pi / 180) + L2 * Real.sin (t2 * Real.pi / 180)) := by
  unfold forward_kinematics radians mk_scara
  simp only
  rw [show t1 * (Real.pi / 180) = t1 * Real.pi / 180 by ring,
      show t2 * (Real.pi / 180) = t2 * Real.pi / 180 by ring]

/-! ### The reachability gate -/

/-- The gate of `inverse_kinematics` over the stored radii: `None` is returned
exactly when the raw distance exceeds `max_radius` or falls below
`min_radius`, with strict comparisons and no epsilon. -/
lemma inverse_unreachable_iff (L1 L2 x y : ℝ) :
    inverse_kinematics (mk_scara L1 L2) x y = IKResult.unreachable ↔
      (Real.sqrt (x * x + y * y) > L1 + L2 ∨
       Real.sqrt (x * x + y * y) < |L1 - L2|) := by
  unfold inverse_kinematics mk_scara
  simp only
  split_ifs with h1 h2 h3
  · simpa using h1
  · simp [h1]
  · simp [h1]
  · simp [h1]

/-- C3: with exact arithmetic the gate tolerance is `ε = 0`:
`inverse_kinematics` reports no solution exactly when the distance
`L3 = sqrt (x² + y²)` satisfies `L3 > max_radius` or `L3 < min_radius`; in
particular `(301, 0)` with `L1 = L2 = 150` and `(0, 0)` with
`L1 = 150, L2 = 100` are unreachable, while `(300, 0)` with `L1 = L2 = 150`
(distance exactly `max_radius`) is not reported unreachable. -/
theorem reachability_gate :
    (∀ L1 L2 x y : ℝ,
        inverse_kinematics (mk_scara L1 L2) x y = IKResult.unreachable ↔
          (Real.sqrt (x * x + y * y) > L1 + L2 ∨
           Real.sqrt (x * x + y * y) < |L1 - L2|)) ∧
    inverse_kinematics (mk_scara 150 150) 301 0 = IKResult.unreachable ∧
    inverse_kinematics (mk_scara 150 100) 0 0 = IKResult.unreachable ∧
    inverse_kinematics (mk_scara 150 150) 300 0 ≠ IKResult.unreachable := by
  have h301 : Real.sqrt ((301 : ℝ) * 301 + 0 * 0) = 301 := by
    rw [show (301 : ℝ) * 301 + 0 * 0 = 301 ^ 2 by norm_num,
        Real.sqrt_sq (by norm_num : (0:ℝ) ≤ 301)]
  have h300 : Real.sqrt ((300 : ℝ) * 300 + 0 * 0) = 300 := by
    rw [show (300 : ℝ) * 300 + 0 * 0 = 300 ^ 2 by norm_num,
        Real.sqrt_sq (by norm_num : (0:ℝ) ≤ 300)]
  have h0 : Real.sqrt ((0 : ℝ) * 0 + 0 * 0) = 0 := by
    rw [show (0 : ℝ) * 0 + 0 * 0 = 0 by norm_num, Real.sqrt_zero]
  refine ⟨inverse_unreachable_iff, ?_, ?_, ?_⟩
  · rw [inverse_unreachable_iff, h301]
    left
    norm_num
  · rw [inverse_unreachable_iff, h0]
    right
    rw [abs_of_nonneg (by norm_num : (0:ℝ) ≤ 150 - 100)]
    norm_num
  · rw [Ne, inverse_unreachable_iff, h300]
    push_neg
    constructor
    · norm_num
    · rw [abs_of_nonneg (by norm_num : (0:ℝ) ≤ 150 - 150)]
      norm_num

/-- With `L1 = L2 = 150` the origin passes the reachability gate
(`min_radius = 0`), but the code then divides by `2·L1·L3 = 0` when computing
`cos_angle_at_base`, so the call raises `ZeroDivisionError`. -/
lemma origin_raises_aux :
    inverse_kinematics (mk_scara 150 150) 0 0 = IKResult.divByZero := by
  unfold inverse_kinematics mk_scara
  simp only
  rw [show (0 : ℝ) * 0 + 0 * 0 = 0 by norm_num, Real.sqrt_zero]
  rw [if_neg, if_neg (by norm_num : ¬(2 * (150:ℝ) * 150 = 0)),
      if_pos (by norm_num : 2 * (150:ℝ) * 0 = 0)]
  push_neg
  constructor
  · norm_num
  · rw [abs_of_nonneg (by norm_num : (0:ℝ) ≤ 150 - 150)]
    norm_num

/-- C4: with `L1 = L2 = 150` the origin passes the reachability gate, yet the
call does not return a defined `SolutionPair`: it raises `ZeroDivisionError`
(division by `2·L1·L3` with `L3 = 0`), contradicting the specified
"must not throw, define `target_angle` as 0°" behaviour. -/
theorem inverse_kinematics_origin_raises :
    inverse_kinematics (mk_scara 150 150) 0 0 = IKResult.divByZero :=
  origin_raises_aux

/-! ### Law-of-cosines ratios on the reachable annulus -/

lemma clamp1_eq_self {v : ℝ} (h1 : -1 ≤ v) (h2 : v ≤ 1) : clamp1 v = v := by
  unfold clamp1
  rw [min_eq_right h2, max_eq_right h1]

lemma clamp1_le_one (v : ℝ) : clamp1 v ≤ 1 := by
  unfold clamp1
  exact max_le (by norm_num) (min_le_left 1 v)

/-- On the reachable annulus the elbow ratio lies in `[-1, 1]`. -/
lemma elbow_ratio_bounds {L1 L2 L3 : ℝ} (hL1 : 0 < L1) (hL2 : 0 < L2)
    (hL3 : 0 ≤ L3) (hmin : |L1 - L2| ≤ L3) (hmax : L3 ≤ L1 + L2) :
    -1 ≤ (L1 ^ 2 + L2 ^ 2 - L3 ^ 2) / (2 * L1 * L2) ∧
    (L1 ^ 2 + L2 ^ 2 - L3 ^ 2) / (2 * L1 * L2) ≤ 1 := by
  have hd : (0 : ℝ) < 2 * L1 * L2 := by positivity
  have hsq : (L1 - L2) * (L1 - L2) ≤ L3 * L3 := by
    have h := mul_self_le_mul_self (abs_nonneg (L1 - L2)) hmin
    rwa [abs_mul_abs_self] at h
  have hsq2 : L3 * L3 ≤ (L1 + L2) * (L1 + L2) := mul_self_le_mul_self hL3 hmax
  constructor
  · rw [le_div_iff₀ hd]
    nlinarith
  · rw [div_le_one hd]
    nlinarith

/-- On the reachable annulus the base ratio lies in `[-1, 1]`. -/
lemma base_ratio_bounds {L1 L2 L3 : ℝ} (hL1 : 0 < L1) (hL2 : 0 < L2)
    (hL3 : 0 < L3) (hmin : |L1 - L2| ≤ L3) (hmax : L3 ≤ L1 + L2) :
    -1 ≤ (L1 ^ 2 + L3 ^ 2 - L2 ^ 2) / (2 * L1 * L3) ∧
    (L1 ^ 2 + L3 ^ 2 - L2 ^ 2) / (2 * L1 * L3) ≤ 1 := by
  have hd : (0 : ℝ) < 2 * L1 * L3 := by positivity
  have hup : L1 - L2 ≤ L3 := le_trans (le_abs_self (L1 - L2)) hmin
  have hlo : L2 - L1 ≤ L3 := by
    have h := le_abs_self (L2 - L1)
    rw [abs_sub_comm] at h
    exact le_trans h hmin
  constructor
  · rw [le_div_iff₀ hd]
    nlinarith [mul_nonneg (by linarith : (0:ℝ) ≤ L1 + L3 - L2)
      (by linarith : (0:ℝ) ≤ L1 + L3 + L2)]
  · rw [div_le_one hd]
    nlinarith [mul_nonneg (by linarith : (0:ℝ) ≤ L2 - L1 + L3)
      (by linarith : (0:ℝ) ≤ L2 + L1 - L3)]

/-- Law-of-cosines identity relating the two clamped ratios. -/
lemma key_linear {L1 L2 L3 : ℝ} (hL1 : L1 ≠ 0) (hL2 : L2 ≠ 0) (hL3 : L3 ≠ 0) :
    L1 - L2 * ((L1 ^ 2 + L2 ^ 2 - L3 ^ 2) / (2 * L1 * L2)) =
      L3 * ((L1 ^ 2 + L3 ^ 2 - L2 ^ 2) / (2 * L1 * L3)) := by
  field_simp
  ring

/-- The matching identity for the sines of the two triangle angles. -/
lemma key_sine {L1 L2 L3 : ℝ} (hL1 : 0 < L1) (hL2 : 0 < L2) (hL3 : 0 < L3) :
    L2 * Real.sqrt (1 - ((L1 ^ 2 + L2 ^ 2 - L3 ^ 2) / (2 * L1 * L2)) ^ 2) =
      L3 * Real.sqrt (1 - ((L1 ^ 2 + L3 ^ 2 - L2 ^ 2) / (2 * L1 * L3)) ^ 2) := by
  have e1 : L2 * Real.sqrt (1 - ((L1 ^ 2 + L2 ^ 2 - L3 ^ 2) / (2 * L1 * L2)) ^ 2) =
      Real.sqrt (L2 ^ 2 * (1 - ((L1 ^ 2 + L2 ^ 2 - L3 ^ 2) / (2 * L1 * L2)) ^ 2)) := by
    rw [Real.sqrt_mul (sq_nonneg L2), Real.sqrt_sq hL2.le]
  have e2 : L3 * Real.sqrt (1 - ((L1 ^ 2 + L3 ^ 2 - L2 ^ 2) / (2 * L1 * L3)) ^ 2) =
      Real.sqrt (L3 ^ 2 * (1 - ((L1 ^ 2 + L3 ^ 2 - L2 ^ 2) / (2 * L1 * L3)) ^ 2)) := by
    rw [Real.sqrt_mul (sq_nonneg L3), Real.sqrt_sq hL3.le]
  rw [e1, e2]
  congr 1
  field_simp
  ring

/-! ### The two elbow branches reproduce the target -/

/-- Positive-elbow branch: joint angles `θ1` and `θ1 + π - E` place the end
effector at distance `L3` in direction `θ1 + b`. -/
lemma branch_calc_pos {L1 L2 L3 b E : ℝ} (θ1 : ℝ)
    (k1 : L1 - L2 * Real.cos E = L3 * Real.cos b)
    (k2 : L2 * Real.sin E = L3 * Real.sin b) :
    L1 * Real.cos θ1 + L2 * Real.cos (θ1 + Real.pi - E) =
        L3 * Real.cos (θ1 + b) ∧
    L1 * Real.sin θ1 + L2 * Real.sin (θ1 + Real.pi - E) =
        L3 * Real.sin (θ1 + b) := by
  have hc : θ1 + Real.pi - E = (θ1 - E) + Real.pi := by ring
  constructor
  · rw [hc, Real.cos_add_pi, Real.cos_sub, Real.cos_add]
    linear_combination Real.cos θ1 * k1 - Real.sin θ1 * k2
  · rw [hc, Real.sin_add_pi, Real.sin_sub, Real.sin_add]
    linear_combination Real.sin θ1 * k1 + Real.cos θ1 * k2

/-- Negative-elbow branch: joint angles `θ1` and `θ1 + π + E` place the end
effector at distance `L3` in direction `θ1 - b`. -/
lemma branch_calc_neg {L1 L2 L3 b E : ℝ} (θ1 : ℝ)
    (k1 : L1 - L2 * Real.cos E = L3 * Real.cos b)
    (k2 : L2 * Real.sin E = L3 * Real.sin b) :
    L1 * Real.cos θ1 + L2 * Real.cos (θ1 + Real.pi + E) =
        L3 * Real.cos (θ1 - b) ∧
    L1 * Real.sin θ1 + L2 * Real.sin (θ1 + Real.pi + E) =
        L3 * Real.sin (θ1 - b) := by
  have hc : θ1 + Real.pi + E = (θ1 + E) + Real.pi := by ring
  constructor
  · rw [hc, Real.cos_add_pi, Real.cos_add, Real.cos_sub]
    linear_combination Real.cos θ1 * k1 + Real.sin θ1 * k2
  · rw [hc, Real.sin_add_pi, Real.sin_add, Real.sin_sub]
    linear_combination Real.sin θ1 * k1 - Real.cos θ1 * k2

/-! ### Normalization is invisible to the trigonometric functions -/

lemma radians_normalize_degrees (θ : ℝ) :
    radians (normalize_angle (degrees θ)) =
      θ - (⌊degrees θ / 360⌋ : ℝ) * (2 * Real.pi) := by
  unfold radians normalize_angle pymod degrees
  have hpi : Real.pi ≠ 0 := Real.pi_ne_zero
  field_simp
  ring

lemma cos_radians_normalize_degrees (θ : ℝ) :
    Real.cos (radians (normalize_angle (degrees θ))) = Real.cos θ := by
  rw [radians_normalize_degrees, Real.cos_sub_int_mul_two_pi]

lemma sin_radians_normalize_degrees (θ : ℝ) :
    Real.sin (radians (normalize_angle (degrees θ))) = Real.sin θ := by
  rw [radians_normalize_degrees, Real.sin_sub_int_mul_two_pi]

/-! ### Named versions of the local variables of `inverse_kinematics` -/

/-- The local `L3` of `inverse_kinematics`. -/
noncomputable def ikL3 (x y : ℝ) : ℝ := Real.sqrt (x * x + y * y)

/-- The local `target_angle` of `inverse_kinematics`. -/
noncomputable def ikTarget (x y : ℝ) : ℝ := atan2 y x

/-- The local `elbow_angle_pos` of `inverse_kinematics`. -/
noncomputable def ikElbow (L1 L2 x y : ℝ) : ℝ :=
  Real.arccos (clamp1 ((L1 ^ 2 + L2 ^ 2 - ikL3 x y ^ 2) / (2 * L1 * L2)))

/-- The local `angle_at_base` of `inverse_kinematics`. -/
noncomputable def ikBase (L1 L2 x y : ℝ) : ℝ :=
  Real.arccos (clamp1 ((L1 ^ 2 + ikL3 x y ^ 2 - L2 ^ 2) / (2 * L1 * ikL3 x y)))

/-- On the open annulus (gate passed, distance nonzero) `inverse_kinematics`
returns its two solutions, expressed through the named local variables. -/
lemma inverse_eq_ok (L1 L2 x y : ℝ) (hL1 : 0 < L1) (hL2 : 0 < L2)
    (hmin : |L1 - L2| ≤ Real.sqrt (x * x + y * y))
    (hmax : Real.sqrt (x * x + y * y) ≤ L1 + L2)
    (h0 : Real.sqrt (x * x + y * y) ≠ 0) :
    inverse_kinematics (mk_scara L1 L2) x y =
      IKResult.ok
        (normalize_angle (degrees
          (if ikElbow L1 L2 x y > 0 then ikTarget x y - ikBase L1 L2 x y
           else ikTarget x y + ikBase L1 L2 x y)),
         normalize_angle (degrees
          ((if ikElbow L1 L2 x y > 0 then ikTarget x y - ikBase L1 L2 x y
            else ikTarget x y + ikBase L1 L2 x y) + Real.pi - ikElbow L1 L2 x y)))
        (normalize_angle (degrees (ikTarget x y + ikBase L1 L2 x y)),
         normalize_angle (degrees
          (ikTarget x y + ikBase L1 L2 x y + Real.pi + ikElbow L1 L2 x y))) := by
  have hL3pos : 0 < Real.sqrt (x * x + y * y) :=
    lt_of_le_of_ne (Real.sqrt_nonneg _) (Ne.symm h0)
  have hgate : ¬(Real.sqrt (x * x + y * y) > L1 + L2 ∨
      Real.sqrt (x * x + y * y) < |L1 - L2|) := by
    push_neg
    exact ⟨hmax, hmin⟩
  have h2 : ¬(2 * L1 * L2 = 0) := (by positivity : (0:ℝ) < 2 * L1 * L2).ne'
  have h3 : ¬(2 * L1 * Real.sqrt (x * x + y * y) = 0) :=
    (by positivity : (0:ℝ) < 2 * L1 * Real.sqrt (x * x + y * y)).ne'
  have hB : ¬(-Real.arccos (clamp1
      ((L1 ^ 2 + L2 ^ 2 - Real.sqrt (x * x + y * y) ^ 2) / (2 * L1 * L2))) > 0) :=
    not_lt.mpr (neg_nonpos_of_nonneg (Real.arccos_nonneg _))
  unfold inverse_kinematics mk_scara
  simp only
  rw [if_neg hgate, if_neg h2, if_neg h3, if_neg hB]
  unfold ikElbow ikBase ikTarget ikL3
  rw [sub_neg_eq_add]

/-! ### Small evaluation facts -/

lemma degrees_zero : degrees 0 = 0 := by
  unfold degrees
  exact zero_mul _

lemma normalize_angle_zero : normalize_angle 0 = 0 := by
  unfold normalize_angle
  exact pymod_360_eq_self le_rfl (by norm_num)

lemma degrees_two_pi : degrees (2 * Real.pi) = 360 := by
  unfold degrees
  field_simp
  ring

lemma normalize_angle_360 : normalize_angle 360 = 0 := by
  unfold normalize_angle pymod
  rw [show (360:ℝ) / 360 = 1 by norm_num, Int.floor_one]
  norm_num

lemma sqrt_300_eval : Real.sqrt ((300:ℝ) * 300 + 0 * 0) = 300 := by
  rw [show (300:ℝ) * 300 + 0 * 0 = 300 ^ 2 by norm_num,
      Real.sqrt_sq (by norm_num : (0:ℝ) ≤ 300)]

/-- Concrete run: with `L1 = L2 = 150` the fully-extended target `(300, 0)`
produces the degenerate solution pair `((0, 0), (0, 0))`. -/
lemma inverse_150_300 :
    inverse_kinematics (mk_scara 150 150) 300 0 =
      IKResult.ok ((0 : ℝ), (0 : ℝ)) ((0 : ℝ), (0 : ℝ)) := by
  have habs : |(150:ℝ) - 150| = 0 := by norm_num
  rw [inverse_eq_ok 150 150 300 0 (by norm_num) (by norm_num)
      (by rw [sqrt_300_eval, habs]; norm_num)
      (by rw [sqrt_300_eval]; norm_num)
      (by rw [sqrt_300_eval]; norm_num)]
  have hL3 : ikL3 300 0 = 300 := by
    unfold ikL3
    exact sqrt_300_eval
  have ht : ikTarget 300 0 = 0 := by
    unfold ikTarget atan2
    rw [Complex.arg_eq_zero_iff]
    exact ⟨by norm_num, rfl⟩
  have hE : ikElbow 150 150 300 0 = Real.pi := by
    unfold ikElbow
    rw [hL3, show ((150:ℝ) ^ 2 + 150 ^ 2 - 300 ^ 2) / (2 * 150 * 150) = -1 by norm_num,
        clamp1_eq_self (le_refl (-1)) (by norm_num), Real.arccos_neg_one]
  have hbb : ikBase 150 150 300 0 = 0 := by
    unfold ikBase
    rw [hL3, show ((150:ℝ) ^ 2 + 300 ^ 2 - 150 ^ 2) / (2 * 150 * 300) = 1 by norm_num,
        clamp1_eq_self (by norm_num) (le_refl 1), Real.arccos_one]
  rw [hE, hbb, ht, if_pos Real.pi_pos]
  rw [show (0:ℝ) - 0 + Real.pi - Real.pi = 0 by ring,
      show (0:ℝ) + 0 + Real.pi + Real.pi = 2 * Real.pi by ring,
      show (0:ℝ) - 0 = 0 by ring, show (0:ℝ) + 0 = 0 by ring,
      degrees_zero, degrees_two_pi, normalize_angle_zero, normalize_angle_360]

/-! ### Degenerate pairs at the reachability boundary -/

/-- C7: whenever the target's distance is exactly `max_radius` or exactly
`min_radius` (and nonzero, so that the call returns at all), the returned
`SolutionPair` has both entries identical. -/
theorem boundary_degenerate (L1 L2 x y : ℝ) (hL1 : 0 < L1) (hL2 : 0 < L2)
    (hb : Real.sqrt (x * x + y * y) = L1 + L2 ∨
          Real.sqrt (x * x + y * y) = |L1 - L2|)
    (h0 : Real.sqrt (x * x + y * y) ≠ 0) :
    ∃ s, inverse_kinematics (mk_scara L1 L2) x y = IKResult.ok s s := by
  have habs_le : |L1 - L2| ≤ L1 + L2 := abs_le.mpr ⟨by linarith, by linarith⟩
  rcases hb with hbm | hbm
  · -- fully extended: L3 = max_radius
    rw [inverse_eq_ok L1 L2 x y hL1 hL2 (by rw [hbm]; exact habs_le)
        (le_of_eq hbm) h0]
    have hL3 : ikL3 x y = L1 + L2 := hbm
    have hE : ikElbow L1 L2 x y = Real.pi := by
      unfold ikElbow
      rw [hL3, show (L1 ^ 2 + L2 ^ 2 - (L1 + L2) ^ 2) / (2 * L1 * L2) = -1 by
          rw [div_eq_iff (by positivity : (2:ℝ) * L1 * L2 ≠ 0)]; ring,
        clamp1_eq_self (le_refl (-1)) (by norm_num), Real.arccos_neg_one]
    have hbb : ikBase L1 L2 x y = 0 := by
      unfold ikBase
      rw [hL3, show (L1 ^ 2 + (L1 + L2) ^ 2 - L2 ^ 2) / (2 * L1 * (L1 + L2)) = 1 by
          rw [div_eq_iff (by positivity : (2:ℝ) * L1 * (L1 + L2) ≠ 0)]; ring,
        clamp1_eq_self (by norm_num) (le_refl 1), Real.arccos_one]
    rw [hE, hbb, if_pos Real.pi_pos]
    have hfst : ikTarget x y + 0 = ikTarget x y - 0 := by ring
    have hsnd : degrees (ikTarget x y - 0 + Real.pi + Real.pi) =
        degrees (ikTarget x y - 0 + Real.pi - Real.pi) + 360 * ((1:ℤ):ℝ) := by
      unfold degrees
      push_cast
      field_simp
      ring
    rw [hfst, show normalize_angle (degrees (ikTarget x y - 0 + Real.pi + Real.pi)) =
        normalize_angle (degrees (ikTarget x y - 0 + Real.pi - Real.pi)) by
      rw [hsnd]; unfold normalize_angle; rw [pymod_360_add_int]]
    exact ⟨_, rfl⟩
  · -- fully folded: L3 = min_radius
    rw [inverse_eq_ok L1 L2 x y hL1 hL2 (le_of_eq hbm.symm)
        (by rw [hbm]; exact habs_le) h0]
    have hL3 : ikL3 x y = |L1 - L2| := hbm
    have hE : ikElbow L1 L2 x y = 0 := by
      unfold ikElbow
      rw [hL3, sq_abs, show (L1 ^ 2 + L2 ^ 2 - (L1 - L2) ^ 2) / (2 * L1 * L2) = 1 by
          rw [div_eq_iff (by positivity : (2:ℝ) * L1 * L2 ≠ 0)]; ring,
        clamp1_eq_self (by norm_num) (le_refl 1), Real.arccos_one]
    rw [hE, if_neg (lt_irrefl 0)]
    rw [show ikTarget x y + ikBase L1 L2 x y + Real.pi + 0 =
        ikTarget x y + ikBase L1 L2 x y + Real.pi - 0 by ring]
    exact ⟨_, rfl⟩

/-- Witness for `boundary_degenerate`: with `L1 = L2 = 150` the target
`(300, 0)` at distance exactly `max_radius` yields an equal-entry pair. -/
theorem boundary_degenerate_witness :
    ∃ s, inverse_kinematics (mk_scara 150 150) 300 0 = IKResult.ok s s :=
  boundary_degenerate 150 150 300 0 (by norm_num) (by norm_num)
    (Or.inl (by rw [sqrt_300_eval]; norm_num))
    (by rw [sqrt_300_eval]; norm_num)

/-! ### The branch formulas, as the specification claims them -/

/-- The claim's `target_angle = atan2(y, x)`. -/
noncomputable def claimed_target_angle (x y : ℝ) : ℝ := atan2 y x

/-- The claim's `base_angle`: arccos of the clamped ratio
`(L1² + L3² - L2²) / (2·L1·L3)` with `L3 = sqrt (x² + y²)`. -/
noncomputable def claimed_base_angle (L1 L2 x y : ℝ) : ℝ :=
  Real.arccos (clamp1 ((L1 ^ 2 + Real.sqrt (x ^ 2 + y ^ 2) ^ 2 - L2 ^ 2) /
    (2 * L1 * Real.sqrt (x ^ 2 + y ^ 2))))

/-- The claim's `elbow_angle_pos`: arccos of the clamped ratio
`(L1² + L2² - L3²) / (2·L1·L2)`. -/
noncomputable def claimed_elbow_pos (L1 L2 x y : ℝ) : ℝ :=
  Real.arccos (clamp1 ((L1 ^ 2 + L2 ^ 2 - Real.sqrt (x ^ 2 + y ^ 2) ^ 2) /
    (2 * L1 * L2)))

/-- The claim's positive-elbow branch:
`θ1 = target_angle - base_angle`, `θ2 = θ1 + π - elbow_angle_pos`, both
converted to degrees and normalized to `[0°, 360°)`. -/
noncomputable def claimed_solution_pos (L1 L2 x y : ℝ) : ℝ × ℝ :=
  (normalize_angle (degrees
      (claimed_target_angle x y - claimed_base_angle L1 L2 x y)),
   normalize_angle (degrees
      (claimed_target_angle x y - claimed_base_angle L1 L2 x y +
        Real.pi - claimed_elbow_pos L1 L2 x y)))

/-- The claim's negative-elbow branch:
`θ1 = target_angle + base_angle`, `θ2 = θ1 + π - elbow_angle_neg` with
`elbow_angle_neg = -elbow_angle_pos`, both converted to degrees and
normalized to `[0°, 360°)`. -/
noncomputable def claimed_solution_neg (L1 L2 x y : ℝ) : ℝ × ℝ :=
  (normalize_angle (degrees
      (claimed_target_angle x y + claimed_base_angle L1 L2 x y)),
   normalize_angle (degrees
      (claimed_target_angle x y + claimed_base_angle L1 L2 x y +
        Real.pi - (-claimed_elbow_pos L1 L2 x y))))

/-- Adding a full turn before the degree conversion does not change the
normalized result. -/
lemma normalize_degrees_add_two_pi {u v : ℝ} (h : u = v + 2 * Real.pi) :
    normalize_angle (degrees u) = normalize_angle (degrees v) := by
  have hd : degrees u = degrees v + 360 * ((1 : ℤ) : ℝ) := by
    rw [h]
    unfold degrees
    push_cast
    field_simp
    ring
  rw [hd]
  unfold normalize_angle
  exact pymod_360_add_int _ 1

/-- C1 counterexample: with `L1 = L2 = 150` the origin `(0, 0)` is a reachable
target (its distance 0 lies within `[min_radius, max_radius] = [0, 300]`),
yet `inverse_kinematics` does not return two solutions — it raises
`ZeroDivisionError`. -/
theorem claimed_formulas_counterexample :
    (|(150:ℝ) - 150| ≤ Real.sqrt ((0:ℝ) * 0 + 0 * 0) ∧
      Real.sqrt ((0:ℝ) * 0 + 0 * 0) ≤ 150 + 150) ∧
    inverse_kinematics (mk_scara 150 150) 0 0 = IKResult.divByZero := by
  refine ⟨⟨?_, ?_⟩, origin_raises_aux⟩
  · rw [show (0:ℝ) * 0 + 0 * 0 = 0 by norm_num, Real.sqrt_zero]
    rw [abs_of_nonneg (by norm_num : (0:ℝ) ≤ 150 - 150)]
    norm_num
  · rw [show (0:ℝ) * 0 + 0 * 0 = 0 by norm_num, Real.sqrt_zero]
    positivity

/-- C1 (amended: the reachable target must lie at nonzero distance from the
origin — at distance 0 the call raises instead of returning): for every such
target, `inverse_kinematics` returns exactly the two claimed solutions, the
positive-elbow branch first and the negative-elbow branch second. -/
theorem inverse_matches_claimed_formulas (L1 L2 x y : ℝ)
    (hL1 : 0 < L1) (hL2 : 0 < L2)
    (hmin : |L1 - L2| ≤ Real.sqrt (x * x + y * y))
    (hmax : Real.sqrt (x * x + y * y) ≤ L1 + L2)
    (h0 : Real.sqrt (x * x + y * y) ≠ 0) :
    inverse_kinematics (mk_scara L1 L2) x y =
      IKResult.ok (claimed_solution_pos L1 L2 x y)
        (claimed_solution_neg L1 L2 x y) := by
  have hxy : Real.sqrt (x ^ 2 + y ^ 2) = Real.sqrt (x * x + y * y) := by
    rw [show x ^ 2 + y ^ 2 = x * x + y * y by ring]
  have hbase : claimed_base_angle L1 L2 x y = ikBase L1 L2 x y := by
    unfold claimed_base_angle ikBase ikL3
    rw [hxy]
  have helbow : claimed_elbow_pos L1 L2 x y = ikElbow L1 L2 x y := by
    unfold claimed_elbow_pos ikElbow ikL3
    rw [hxy]
  have htar : claimed_target_angle x y = ikTarget x y := rfl
  rw [inverse_eq_ok L1 L2 x y hL1 hL2 hmin hmax h0]
  unfold claimed_solution_pos claimed_solution_neg
  rw [hbase, helbow, htar, sub_neg_eq_add]
  by_cases hEpos : ikElbow L1 L2 x y > 0
  · rw [if_pos hEpos]
  · -- degenerate branch: the elbow angle is 0, so the code takes the
    -- `target_angle + base_angle` side; the claimed `target_angle - base_angle`
    -- differs by 0 or by a full turn after normalization.
    rw [if_neg hEpos]
    have hE0 : ikElbow L1 L2 x y = 0 :=
      le_antisymm (not_lt.mp hEpos) (Real.arccos_nonneg _)
    have hbounds :=
      elbow_ratio_bounds hL1 hL2 (Real.sqrt_nonneg (x * x + y * y))
        hmin hmax
    have hclamp :
        clamp1 ((L1 ^ 2 + L2 ^ 2 - Real.sqrt (x * x + y * y) ^ 2) /
          (2 * L1 * L2)) =
        (L1 ^ 2 + L2 ^ 2 - Real.sqrt (x * x + y * y) ^ 2) / (2 * L1 * L2) :=
      clamp1_eq_self hbounds.1 hbounds.2
    have hE0' : Real.arccos (clamp1
        ((L1 ^ 2 + L2 ^ 2 - Real.sqrt (x * x + y * y) ^ 2) /
          (2 * L1 * L2))) = 0 := hE0
    have hone : (L1 ^ 2 + L2 ^ 2 - Real.sqrt (x * x + y * y) ^ 2) /
        (2 * L1 * L2) = 1 := by
      have h1 := Real.arccos_eq_zero.mp hE0'
      rw [hclamp] at h1
      exact le_antisymm (hclamp ▸ clamp1_le_one _) h1
    have hnum : L1 ^ 2 + L2 ^ 2 - Real.sqrt (x * x + y * y) ^ 2 =
        2 * L1 * L2 := by
      rw [div_eq_iff (by positivity : (2:ℝ) * L1 * L2 ≠ 0)] at hone
      linarith [hone]
    have hL3sq : Real.sqrt (x * x + y * y) ^ 2 = (L1 - L2) ^ 2 := by nlinarith
    have hL3abs : Real.sqrt (x * x + y * y) = |L1 - L2| := by
      rw [← Real.sqrt_sq (Real.sqrt_nonneg (x * x + y * y)), hL3sq,
        Real.sqrt_sq_eq_abs]
    have hne : L1 - L2 ≠ 0 := by
      intro hcontra
      rw [hL3abs, hcontra, abs_zero] at h0
      exact h0 rfl
    rcases lt_trichotomy L1 L2 with hlt | heq | hgt
    · -- L1 < L2 : base angle is π
      have habs : |L1 - L2| = L2 - L1 := by
        rw [abs_of_neg (by linarith : L1 - L2 < 0)]
        ring
      have hbb : ikBase L1 L2 x y = Real.pi := by
        unfold ikBase ikL3
        rw [hL3abs, habs]
        rw [show (L1 ^ 2 + (L2 - L1) ^ 2 - L2 ^ 2) / (2 * L1 * (L2 - L1)) = -1 by
            rw [div_eq_iff (ne_of_gt (mul_pos
              (by linarith : (0:ℝ) < 2 * L1) (by linarith : (0:ℝ) < L2 - L1)))]
            ring,
          clamp1_eq_self (le_refl (-1)) (by norm_num), Real.arccos_neg_one]
      rw [hbb, hE0]
      have e2 : normalize_angle (degrees
          (ikTarget x y + Real.pi + Real.pi - 0)) =
          normalize_angle (degrees (ikTarget x y - Real.pi + Real.pi - 0)) :=
        normalize_degrees_add_two_pi (by ring)
      have e1 : normalize_angle (degrees (ikTarget x y + Real.pi)) =
          normalize_angle (degrees (ikTarget x y - Real.pi)) :=
        normalize_degrees_add_two_pi (by ring)
      rw [e2, e1]
    · exact absurd (by rw [heq]; ring) hne
    · -- L2 < L1 : base angle is 0
      have habs : |L1 - L2| = L1 - L2 :=
        abs_of_pos (by linarith : 0 < L1 - L2)
      have hbb : ikBase L1 L2 x y = 0 := by
        unfold ikBase ikL3
        rw [hL3abs, habs]
        rw [show (L1 ^ 2 + (L1 - L2) ^ 2 - L2 ^ 2) / (2 * L1 * (L1 - L2)) = 1 by
            rw [div_eq_iff (ne_of_gt (mul_pos
              (by linarith : (0:ℝ) < 2 * L1) (by linarith : (0:ℝ) < L1 - L2)))]
            ring,
          clamp1_eq_self (by norm_num) (le_refl 1), Real.arccos_one]
      rw [hbb, hE0, show ikTarget x y + 0 = ikTarget x y - 0 by ring]

/-- Witness for `inverse_matches_claimed_formulas` at `L1 = L2 = 150`,
target `(300, 0)`. -/
theorem inverse_matches_claimed_formulas_witness :
    inverse_kinematics (mk_scara 150 150) 300 0 =
      IKResult.ok (claimed_solution_pos 150 150 300 0)
        (claimed_solution_neg 150 150 300 0) :=
  inverse_matches_claimed_formulas 150 150 300 0 (by norm_num) (by norm_num)
    (by rw [sqrt_300_eval, abs_of_nonneg (by norm_num : (0:ℝ) ≤ 150 - 150)]
        norm_num)
    (by rw [sqrt_300_eval]; norm_num)
    (by rw [sqrt_300_eval]; norm_num)

/-! ### Round trip: forward after inverse reproduces the target -/

/-- C2: whenever `inverse_kinematics` returns a solution pair, applying
`forward_kinematics` to either returned branch reproduces the target `(x, y)`
exactly (over exact real arithmetic). -/
theorem round_trip (L1 L2 x y : ℝ) (hL1 : 0 < L1) (hL2 : 0 < L2)
    (s1 s2 : ℝ × ℝ)
    (hok : inverse_kinematics (mk_scara L1 L2) x y = IKResult.ok s1 s2) :
    forward_kinematics (mk_scara L1 L2) s1.1 s1.2 = (x, y) ∧
    forward_kinematics (mk_scara L1 L2) s2.1 s2.2 = (x, y) := by
  -- recover the gate facts from the successful return
  by_cases hgate : Real.sqrt (x * x + y * y) > L1 + L2 ∨
      Real.sqrt (x * x + y * y) < |L1 - L2|
  · exfalso
    unfold inverse_kinematics mk_scara at hok
    simp only at hok
    rw [if_pos hgate] at hok
    exact IKResult.noConfusion hok
  by_cases h0 : Real.sqrt (x * x + y * y) = 0
  · exfalso
    unfold inverse_kinematics mk_scara at hok
    simp only at hok
    rw [if_neg hgate, if_neg ((by positivity : (0:ℝ) < 2 * L1 * L2).ne'),
        if_pos (by rw [h0]; ring : 2 * L1 * Real.sqrt (x * x + y * y) = 0)]
        at hok
    exact IKResult.noConfusion hok
  push_neg at hgate
  obtain ⟨hmax, hmin⟩ := hgate
  have hL3pos : 0 < Real.sqrt (x * x + y * y) :=
    lt_of_le_of_ne (Real.sqrt_nonneg _) (Ne.symm h0)
  -- trigonometric values of the two computed triangle angles
  have eb := elbow_ratio_bounds hL1 hL2 hL3pos.le hmin hmax
  have bb := base_ratio_bounds hL1 hL2 hL3pos hmin hmax
  have hclampE : clamp1 ((L1 ^ 2 + L2 ^ 2 - Real.sqrt (x * x + y * y) ^ 2) /
      (2 * L1 * L2)) =
      (L1 ^ 2 + L2 ^ 2 - Real.sqrt (x * x + y * y) ^ 2) / (2 * L1 * L2) :=
    clamp1_eq_self eb.1 eb.2
  have hclampB : clamp1 ((L1 ^ 2 + Real.sqrt (x * x + y * y) ^ 2 - L2 ^ 2) /
      (2 * L1 * Real.sqrt (x * x + y * y))) =
      (L1 ^ 2 + Real.sqrt (x * x + y * y) ^ 2 - L2 ^ 2) /
        (2 * L1 * Real.sqrt (x * x + y * y)) :=
    clamp1_eq_self bb.1 bb.2
  have hcosE : Real.cos (ikElbow L1 L2 x y) =
      (L1 ^ 2 + L2 ^ 2 - Real.sqrt (x * x + y * y) ^ 2) / (2 * L1 * L2) := by
    unfold ikElbow ikL3
    rw [hclampE]
    exact Real.cos_arccos eb.1 eb.2
  have hsinE : Real.sin (ikElbow L1 L2 x y) =
      Real.sqrt (1 - ((L1 ^ 2 + L2 ^ 2 - Real.sqrt (x * x + y * y) ^ 2) /
        (2 * L1 * L2)) ^ 2) := by
    unfold ikElbow ikL3
    rw [hclampE]
    exact Real.sin_arccos _
  have hcosB : Real.cos (ikBase L1 L2 x y) =
      (L1 ^ 2 + Real.sqrt (x * x + y * y) ^ 2 - L2 ^ 2) /
        (2 * L1 * Real.sqrt (x * x + y * y)) := by
    unfold ikBase ikL3
    rw [hclampB]
    exact Real.cos_arccos bb.1 bb.2
  have hsinB : Real.sin (ikBase L1 L2 x y) =
      Real.sqrt (1 - ((L1 ^ 2 + Real.sqrt (x * x + y * y) ^ 2 - L2 ^ 2) /
        (2 * L1 * Real.sqrt (x * x + y * y))) ^ 2) := by
    unfold ikBase ikL3
    rw [hclampB]
    exact Real.sin_arccos _
  have k1 : L1 - L2 * Real.cos (ikElbow L1 L2 x y) =
      Real.sqrt (x * x + y * y) * Real.cos (ikBase L1 L2 x y) := by
    rw [hcosE, hcosB]
    exact key_linear hL1.ne' hL2.ne' h0
  have k2 : L2 * Real.sin (ikElbow L1 L2 x y) =
      Real.sqrt (x * x + y * y) * Real.sin (ikBase L1 L2 x y) := by
    rw [hsinE, hsinB]
    exact key_sine hL1 hL2 hL3pos
  -- the target direction
  have hz : (⟨x, y⟩ : ℂ) ≠ 0 := by
    intro hcontra
    rw [Complex.ext_iff] at hcontra
    obtain ⟨hx, hy⟩ := hcontra
    simp only [Complex.zero_re, Complex.zero_im] at hx hy
    apply h0
    rw [show x * x + y * y = 0 by rw [hx, hy]; ring, Real.sqrt_zero]
  have habs : Complex.abs ⟨x, y⟩ = Real.sqrt (x * x + y * y) := by
    rw [Complex.abs_apply, Complex.normSq_mk]
  have hcost : Real.sqrt (x * x + y * y) * Real.cos (ikTarget x y) = x := by
    unfold ikTarget atan2
    rw [Complex.cos_arg hz, habs]
    field_simp
  have hsint : Real.sqrt (x * x + y * y) * Real.sin (ikTarget x y) = y := by
    unfold ikTarget atan2
    rw [Complex.sin_arg, habs]
    field_simp
  -- forward kinematics sees only the underlying angles
  have hforward : ∀ u v : ℝ,
      forward_kinematics (mk_scara L1 L2)
        (normalize_angle (degrees u)) (normalize_angle (degrees v)) =
      (L1 * Real.cos u + L2 * Real.cos v,
       L1 * Real.sin u + L2 * Real.sin v) := by
    intro u v
    unfold forward_kinematics mk_scara
    simp only
    rw [cos_radians_normalize_degrees, cos_radians_normalize_degrees,
        sin_radians_normalize_degrees, sin_radians_normalize_degrees]
  rw [inverse_eq_ok L1 L2 x y hL1 hL2 hmin hmax h0] at hok
  by_cases hEpos : ikElbow L1 L2 x y > 0
  · rw [if_pos hEpos] at hok
    injection hok with e1 e2
    constructor
    · rw [← e1, hforward]
      have hx := (branch_calc_pos (ikTarget x y - ikBase L1 L2 x y)
        k1 k2).1
      have hy := (branch_calc_pos (ikTarget x y - ikBase L1 L2 x y)
        k1 k2).2
      rw [show ikTarget x y - ikBase L1 L2 x y + ikBase L1 L2 x y =
          ikTarget x y by ring] at hx hy
      rw [Prod.mk.injEq]
      exact ⟨by rw [hx, hcost], by rw [hy, hsint]⟩
    · rw [← e2, hforward]
      have hx := (branch_calc_neg (ikTarget x y + ikBase L1 L2 x y)
        k1 k2).1
      have hy := (branch_calc_neg (ikTarget x y + ikBase L1 L2 x y)
        k1 k2).2
      rw [show ikTarget x y + ikBase L1 L2 x y - ikBase L1 L2 x y =
          ikTarget x y by ring] at hx hy
      rw [Prod.mk.injEq]
      exact ⟨by rw [hx, hcost], by rw [hy, hsint]⟩
  · -- elbow angle 0: the code's first branch coincides with the second
    rw [if_neg hEpos] at hok
    have hE0 : ikElbow L1 L2 x y = 0 :=
      le_antisymm (not_lt.mp hEpos) (Real.arccos_nonneg _)
    injection hok with e1 e2
    rw [hE0] at e1 e2 k1 k2
    have hx := (branch_calc_neg (ikTarget x y + ikBase L1 L2 x y) k1 k2).1
    have hy := (branch_calc_neg (ikTarget x y + ikBase L1 L2 x y) k1 k2).2
    rw [show ikTarget x y + ikBase L1 L2 x y - ikBase L1 L2 x y =
        ikTarget x y by ring] at hx hy
    constructor
    · rw [← e1]
      rw [show ikTarget x y + ikBase L1 L2 x y + Real.pi - 0 =
          ikTarget x y + ikBase L1 L2 x y + Real.pi + 0 by ring]
      rw [hforward, Prod.mk.injEq]
      exact ⟨by rw [hx, hcost], by rw [hy, hsint]⟩
    · rw [← e2]
      rw [hforward, Prod.mk.injEq]
      exact ⟨by rw [hx, hcost], by rw [hy, hsint]⟩

/-- Witness for `round_trip`: with `L1 = L2 = 150` the target `(300, 0)`
returns the pair `((0,0), (0,0))`, and forward kinematics at `(0, 0)`
reproduces `(300, 0)` for both branches. -/
theorem round_trip_witness :
    forward_kinematics (mk_scara 150 150) ((0:ℝ), (0:ℝ)).1 ((0:ℝ), (0:ℝ)).2 =
      ((300:ℝ), (0:ℝ)) ∧
    forward_kinematics (mk_scara 150 150) ((0:ℝ), (0:ℝ)).1 ((0:ℝ), (0:ℝ)).2 =
      ((300:ℝ), (0:ℝ)) :=
  round_trip 150 150 300 0 (by norm_num) (by norm_num) (0, 0) (0, 0)
    inverse_150_300

/-! ### Forward kinematics always lands in the reachable annulus -/

/-- C10: for positive link lengths, every output of `forward_kinematics` lies
in the closed annulus `|L1 - L2| ≤ dist ≤ L1 + L2`, so `inverse_kinematics`
applied to it never reports it unreachable. -/
theorem forward_in_annulus (L1 L2 t1 t2 : ℝ) (hL1 : 0 < L1) (hL2 : 0 < L2) :
    |L1 - L2| ≤
      Real.sqrt ((forward_kinematics (mk_scara L1 L2) t1 t2).1 *
          (forward_kinematics (mk_scara L1 L2) t1 t2).1 +
        (forward_kinematics (mk_scara L1 L2) t1 t2).2 *
          (forward_kinematics (mk_scara L1 L2) t1 t2).2) ∧
    Real.sqrt ((forward_kinematics (mk_scara L1 L2) t1 t2).1 *
          (forward_kinematics (mk_scara L1 L2) t1 t2).1 +
        (forward_kinematics (mk_scara L1 L2) t1 t2).2 *
          (forward_kinematics (mk_scara L1 L2) t1 t2).2) ≤ L1 + L2 ∧
    inverse_kinematics (mk_scara L1 L2)
        (forward_kinematics (mk_scara L1 L2) t1 t2).1
        (forward_kinematics (mk_scara L1 L2) t1 t2).2 ≠
      IKResult.unreachable := by
  have hfk : forward_kinematics (mk_scara L1 L2) t1 t2 =
      (L1 * Real.cos (radians t1) + L2 * Real.cos (radians t2),
       L1 * Real.sin (radians t1) + L2 * Real.sin (radians t2)) := rfl
  rw [hfk]
  simp only
  have pA := Real.sin_sq_add_cos_sq (radians t1)
  have pB := Real.sin_sq_add_cos_sq (radians t2)
  have hc : Real.cos (radians t1) * Real.cos (radians t2) +
      Real.sin (radians t1) * Real.sin (radians t2) =
      Real.cos (radians t1 - radians t2) := (Real.cos_sub _ _).symm
  have hub := Real.cos_le_one (radians t1 - radians t2)
  have hlb := Real.neg_one_le_cos (radians t1 - radians t2)
  have hL1L2 : 0 < L1 * L2 := mul_pos hL1 hL2
  have hexp : (L1 * Real.cos (radians t1) + L2 * Real.cos (radians t2)) *
        (L1 * Real.cos (radians t1) + L2 * Real.cos (radians t2)) +
      (L1 * Real.sin (radians t1) + L2 * Real.sin (radians t2)) *
        (L1 * Real.sin (radians t1) + L2 * Real.sin (radians t2)) =
      L1 ^ 2 + L2 ^ 2 +
        2 * L1 * L2 * Real.cos (radians t1 - radians t2) := by
    rw [← hc]
    linear_combination L1 ^ 2 * pA + L2 ^ 2 * pB
  have hupper : (L1 * Real.cos (radians t1) + L2 * Real.cos (radians t2)) *
        (L1 * Real.cos (radians t1) + L2 * Real.cos (radians t2)) +
      (L1 * Real.sin (radians t1) + L2 * Real.sin (radians t2)) *
        (L1 * Real.sin (radians t1) + L2 * Real.sin (radians t2)) ≤
      (L1 + L2) ^ 2 := by
    rw [hexp]
    nlinarith [mul_nonneg hL1L2.le (sub_nonneg.mpr hub)]
  have hlower : (L1 - L2) ^ 2 ≤
      (L1 * Real.cos (radians t1) + L2 * Real.cos (radians t2)) *
        (L1 * Real.cos (radians t1) + L2 * Real.cos (radians t2)) +
      (L1 * Real.sin (radians t1) + L2 * Real.sin (radians t2)) *
        (L1 * Real.sin (radians t1) + L2 * Real.sin (radians t2)) := by
    rw [hexp]
    nlinarith [mul_nonneg hL1L2.le
      (by linarith : (0:ℝ) ≤ 1 + Real.cos (radians t1 - radians t2))]
  have hs_up : Real.sqrt
      ((L1 * Real.cos (radians t1) + L2 * Real.cos (radians t2)) *
        (L1 * Real.cos (radians t1) + L2 * Real.cos (radians t2)) +
      (L1 * Real.sin (radians t1) + L2 * Real.sin (radians t2)) *
        (L1 * Real.sin (radians t1) + L2 * Real.sin (radians t2))) ≤
      L1 + L2 := by
    calc Real.sqrt _ ≤ Real.sqrt ((L1 + L2) ^ 2) := Real.sqrt_le_sqrt hupper
      _ = L1 + L2 := Real.sqrt_sq (by positivity)
  have hs_lo : |L1 - L2| ≤ Real.sqrt
      ((L1 * Real.cos (radians t1) + L2 * Real.cos (radians t2)) *
        (L1 * Real.cos (radians t1) + L2 * Real.cos (radians t2)) +
      (L1 * Real.sin (radians t1) + L2 * Real.sin (radians t2)) *
        (L1 * Real.sin (radians t1) + L2 * Real.sin (radians t2))) := by
    rw [← Real.sqrt_sq_eq_abs]
    exact Real.sqrt_le_sqrt hlower
  refine ⟨hs_lo, hs_up, ?_⟩
  rw [Ne, inverse_unreachable_iff]
  push_neg
  exact ⟨hs_up, hs_lo⟩

/-- Witness for `forward_in_annulus` at `L1 = L2 = 150`, angles `(0°, 90°)`. -/
theorem forward_in_annulus_witness :
    |(150:ℝ) - 150| ≤
      Real.sqrt ((forward_kinematics (mk_scara 150 150) 0 90).1 *
          (forward_kinematics (mk_scara 150 150) 0 90).1 +
        (forward_kinematics (mk_scara 150 150) 0 90).2 *
          (forward_kinematics (mk_scara 150 150) 0 90).2) ∧
    Real.sqrt ((forward_kinematics (mk_scara 150 150) 0 90).1 *
          (forward_kinematics (mk_scara 150 150) 0 90).1 +
        (forward_kinematics (mk_scara 150 150) 0 90).2 *
          (forward_kinematics (mk_scara 150 150) 0 90).2) ≤ 150 + 150 ∧
    inverse_kinematics (mk_scara 150 150)
        (forward_kinematics (mk_scara 150 150) 0 90).1
        (forward_kinematics (mk_scara 150 150) 0 90).2 ≠
      IKResult.unreachable :=
  forward_in_annulus 150 150 0 90 (by norm_num) (by norm_num)

end SCARA
